import Mathlib

/-!
Shallow embedding of the baby-care logging application's reminder/logging
core: the event store (`addEntry`, `updateEntryAmount`), the feed scheduler
(`checkSchedule`, `adjustNextFeed`, `saveManualTime`), the aggregator
(`getChartData`), the startup load of the persisted log, and the insight
client wrapper (`getSmartInsights`).  Timestamps are modelled as `Int`
milliseconds since the epoch; local civil time is modelled with day
boundaries at multiples of 86400000 (a fixed-offset clock without DST,
which is all the arithmetic of the source depends on).  JavaScript
truthiness of a nullable number (`null` and `0` are falsy) is modelled by
`truthy`.
-/

set_option autoImplicit false

/-- Entry categories, from `types.ts` (`EntryType`). -/
inductive EntryType where
  | breast_left
  | breast_right
  | bottle
  | diaper_wet
  | diaper_dirty
  | diaper_both
  | sleep
deriving DecidableEq, Repr

/-- Log entries, from `types.ts` (`LogEntry`).  `amount` and `duration`
are JavaScript numbers used only opaquely by the verified operations, so
they are modelled as integers. -/
structure LogEntry where
  id : String
  type : EntryType
  timestamp : Int
  amount : Option Int
  duration : Option Int
  note : Option String
deriving DecidableEq, Repr

/-- Scheduler state: `manualNextFeedingTime` (a nullable number),
`lastNotifiedRef.current` (a nullable number) and `isAlertVisible`. -/
structure ScheduleState where
  nextFeedingAt : Option Int
  lastNotifiedAt : Option Int
  alertVisible : Bool
deriving DecidableEq, Repr

/-- Combined store-plus-scheduler state used by `addEntry`. -/
structure AppState where
  entries : List LogEntry
  sched : ScheduleState
deriving DecidableEq, Repr

/-- JavaScript truthiness of a `number | null` value: `null` and `0` are
falsy, every other number is truthy. -/
def truthy : Option Int → Bool
  | none => false
  | some v => v != 0

/-- Models the feeding test `type.includes('breast') || type === 'bottle'`
used throughout the app: of the seven `EntryType` literals, exactly
`breast_left` and `breast_right` contain the substring `breast`. -/
def isFeedingType : EntryType → Bool
  | .breast_left => true
  | .breast_right => true
  | .bottle => true
  | _ => false

/-- Milliseconds per minute. -/
def msPerMin : Int := 60000

/-- Milliseconds per hour. -/
def msPerHour : Int := 3600000

/-- Milliseconds per day. -/
def msPerDay : Int := 86400000

/-- The fixed feeding interval: 3 hours (`3 * 60 * 60 * 1000`). -/
def feedInterval : Int := 3 * 60 * 60 * 1000

/-- One tick of the notification monitor (`checkSchedule` inside the
polling effect).  Returns the updated state together with whether the
alert side effect (`triggerFeedingAlert`) fired on this tick.  The guard
`if (!manualNextFeedingTime) return` is JavaScript truthiness, and the
firing condition is
`now >= manualNextFeedingTime && lastNotifiedRef.current !== manualNextFeedingTime`. -/
def checkSchedule (now : Int) (s : ScheduleState) : ScheduleState × Bool :=
  if ¬ truthy s.nextFeedingAt then (s, false)
  else
    match s.nextFeedingAt with
    | none => (s, false)
    | some t =>
      if now ≥ t ∧ s.lastNotifiedAt ≠ some t then
        ({ s with alertVisible := true, lastNotifiedAt := some t }, true)
      else (s, false)

/-- Number of alert side effects emitted by running the periodic check at
each time in `times`, in order, starting from state `s`. -/
def countFires (s : ScheduleState) : List Int → Nat
  | [] => 0
  | t :: ts =>
    let r := checkSchedule t s
    (if r.2 then 1 else 0) + countFires r.1 ts

/-- Models `addEntry(type, amount?, duration?)`.  The two `Date.now()`
calls of the source (the entry timestamp and the base of the auto
schedule) are passed explicitly as `nowEntry` and `nowSched`, and the
fresh random id as `newId`.  For a feeding-type entry the scheduler is
reset (`manualNextFeedingTime` finally `Date.now() + 3h`,
`isAlertVisible` false, `lastNotifiedRef.current` null); otherwise the
scheduler is untouched. -/
def addEntry (nowEntry nowSched : Int) (newId : String) (ty : EntryType)
    (amount duration : Option Int) (st : AppState) : AppState :=
  let newEntry : LogEntry :=
    { id := newId, type := ty, timestamp := nowEntry,
      amount := amount, duration := duration, note := none }
  let st1 : AppState := { st with entries := newEntry :: st.entries }
  if isFeedingType ty then
    { st1 with sched :=
        { nextFeedingAt := some (nowSched + feedInterval),
          lastNotifiedAt := none,
          alertVisible := false } }
  else st1

/-- Models `updateEntryAmount(id, newAmount)`:
`prev.map(e => e.id === id ? { ...e, amount: newAmount } : e)`. -/
def updateEntryAmount (id : String) (newAmount : Int)
    (entries : List LogEntry) : List LogEntry :=
  entries.map (fun e => if e.id = id then { e with amount := some newAmount } else e)

/-- Models `adjustNextFeed(minutes)`:
`base = manualNextFeedingTime || Date.now() + 3h` (JavaScript `||`, so a
stored `0` also falls back), `newTime = base + minutes * 60000`, then the
new time is stored and the alert hidden. -/
def adjustNextFeed (now : Int) (minutes : Int) (s : ScheduleState) : ScheduleState :=
  let base : Int :=
    match s.nextFeedingAt with
    | some v => if v != 0 then v else now + feedInterval
    | none => now + feedInterval
  { s with nextFeedingAt := some (base + minutes * msPerMin),
           alertVisible := false }

/-- Start of the local calendar day containing `t` (fixed-offset clock). -/
def dayStart (t : Int) : Int := t - t % msPerDay

/-- Index of the local calendar day containing `t`. -/
def dayIndex (t : Int) : Int := t / msPerDay

/-- Local hour-of-day field of the instant `t`. -/
def hourOf (t : Int) : Int := t % msPerDay / msPerHour

/-- Local minute field of the instant `t`. -/
def minuteOf (t : Int) : Int := t % msPerHour / msPerMin

/-- Local seconds field of the instant `t`. -/
def secondOf (t : Int) : Int := t % msPerMin / 1000

/-- Models `saveManualTime` for a picker value `hours:minutes`: start from
`new Date()` (= `now`), set the hour, minute and seconds fields (the
sub-second field of `now` is left in place, since `setSeconds(0)` does not
clear milliseconds), and roll forward one calendar day when the resulting
instant is more than 30 minutes in the past. -/
def saveManualTime (now : Int) (hours minutes : Int) (s : ScheduleState) : ScheduleState :=
  let candidate := dayStart now + hours * msPerHour + minutes * msPerMin + now % 1000
  let t := if candidate < now - 1000 * 60 * 30 then candidate + msPerDay else candidate
  { s with nextFeedingAt := some t, alertVisible := false }

example : isFeedingType .bottle = true := by decide

example : (checkSchedule 100 ⟨some 50, none, false⟩).2 = true := by decide

example : (checkSchedule 100 ⟨some 50, some 50, true⟩).2 = false := by decide

example : countFires ⟨some 50, none, false⟩ [10, 60, 70, 80] = 1 := by decide

/-- Helper: one tick of the monitor either leaves the state unchanged and
does not fire, or fires: then the schedule was set to a nonzero time that
has elapsed and was not yet notified, and the tick records it as notified. -/
theorem checkSchedule_cases (now : Int) (s : ScheduleState) :
    checkSchedule now s = (s, false) ∨
    ∃ v, s.nextFeedingAt = some v ∧ v ≠ 0 ∧ now ≥ v ∧ s.lastNotifiedAt ≠ some v ∧
      checkSchedule now s = ({ s with alertVisible := true, lastNotifiedAt := some v }, true) := by
  obtain hn | ⟨v, hn⟩ := s.nextFeedingAt.eq_none_or_eq_some
  · exact Or.inl (by simp [checkSchedule, hn, truthy])
  · by_cases hv : v = 0
    · subst hv
      exact Or.inl (by simp [checkSchedule, hn, truthy])
    · by_cases hc : now ≥ v ∧ s.lastNotifiedAt ≠ some v
      case pos =>
        exact Or.inr ⟨v, hn, hv, hc.1, hc.2,
          by simp [checkSchedule, hn, truthy, bne_iff_ne, hv, hc.1, hc.2]⟩
      case neg =>
        exact Or.inl (by simp [checkSchedule, hn, truthy, bne_iff_ne, hv, hc])

/-- Helper: from a state already notified for its own scheduled value, the
monitor never fires again. -/
theorem countFires_done (v : Int) (s : ScheduleState) (hn : s.nextFeedingAt = some v)
    (hl : s.lastNotifiedAt = some v) (ts : List Int) : countFires s ts = 0 := by
  induction ts with
  | nil => rfl
  | cons t ts ih =>
    have hcs : checkSchedule t s = (s, false) := by
      rcases checkSchedule_cases t s with h | ⟨w, hn', _, _, hne, _⟩
      · exact h
      · exfalso
        have hvw : v = w := by rw [hn] at hn'; exact Option.some.inj hn'
        exact hne (hvw ▸ hl)
    simp [countFires, hcs, ih]

example : countFires ⟨some 50, some 50, true⟩ [60, 70, 80] = 0 :=
  countFires_done 50 _ rfl rfl _

/-- C1: with a set `nextFeedingAt`, any sequence of periodic checks (at
arbitrary times, in particular arbitrarily many past the due time) emits
the alert side effect at most once; and once the state records a
notification for the scheduled value, no later check fires at all. -/
theorem checkSchedule_at_most_once (s : ScheduleState) (v : Int)
    (hn : s.nextFeedingAt = some v) (times : List Int) :
    countFires s times ≤ 1 ∧ (s.lastNotifiedAt = some v → countFires s times = 0) := by
  induction times generalizing s with
  | nil => exact ⟨by simp [countFires], fun _ => rfl⟩
  | cons t ts ih =>
    rcases checkSchedule_cases t s with hcs | ⟨w, hn', hw0, hge, hne, hcs⟩
    · have hstep : countFires s (t :: ts) = countFires s ts := by
        simp [countFires, hcs]
      rw [hstep]
      exact ih s hn
    · have hwv : w = v := by rw [hn] at hn'; exact (Option.some.inj hn').symm
      subst hwv
      have hrest : countFires ({ s with alertVisible := true, lastNotifiedAt := some w }) ts = 0 :=
        countFires_done w _ (by simpa using hn) rfl ts
      have hstep : countFires s (t :: ts) =
          1 + countFires ({ s with alertVisible := true, lastNotifiedAt := some w }) ts := by
        simp [countFires, hcs]
      refine ⟨by rw [hstep, hrest], fun hl => absurd hl hne⟩

/-- Witness for C1: a concrete over-due schedule polled four times fires
exactly once, hence at most once. -/
theorem checkSchedule_at_most_once_witness :
    countFires ⟨some 50, none, false⟩ [60, 70, 80, 90] = 1 ∧
    countFires ⟨some 50, none, false⟩ [60, 70, 80, 90] ≤ 1 :=
  ⟨by decide, (checkSchedule_at_most_once ⟨some 50, none, false⟩ 50 rfl [60, 70, 80, 90]).1⟩

/-- C2: appending a feeding-type entry (either breast side or bottle)
arms the scheduler: `nextFeedingAt` becomes the schedule-time reading of
the clock plus 3 hours, which is within 1 second of the append timestamp
plus 3 hours whenever the two clock readings of the source are within
1 second; the alert is hidden and the last-notified marker cleared; the
new entry is prepended. -/
theorem addEntry_feeding (st : AppState) (ty : EntryType) (newId : String)
    (amount duration : Option Int) (n1 n2 : Int)
    (hty : isFeedingType ty = true) (h12 : n1 ≤ n2) (h21 : n2 ≤ n1 + 1000) :
    (addEntry n1 n2 newId ty amount duration st).sched.nextFeedingAt
        = some (n2 + feedInterval) ∧
    n1 + feedInterval ≤ n2 + feedInterval ∧
    n2 + feedInterval ≤ (n1 + feedInterval) + 1000 ∧
    (addEntry n1 n2 newId ty amount duration st).sched.alertVisible = false ∧
    (addEntry n1 n2 newId ty amount duration st).sched.lastNotifiedAt = none ∧
    (addEntry n1 n2 newId ty amount duration st).entries =
      { id := newId, type := ty, timestamp := n1, amount := amount,
        duration := duration, note := none } :: st.entries := by
  refine ⟨?_, by omega, by omega, ?_, ?_, ?_⟩ <;> simp [addEntry, hty]

/-- Witness for C2 at a concrete bottle append. -/
theorem addEntry_feeding_witness :
    (addEntry 1000 1400 "id1" .bottle (some 4) none ⟨[], ⟨some 77, some 77, true⟩⟩).sched.nextFeedingAt
      = some (1400 + feedInterval) ∧
    (addEntry 1000 1400 "id1" .bottle (some 4) none ⟨[], ⟨some 77, some 77, true⟩⟩).sched.alertVisible
      = false :=
  ⟨(addEntry_feeding ⟨[], ⟨some 77, some 77, true⟩⟩ .bottle "id1" (some 4) none 1000 1400
      (by decide) (by decide) (by decide)).1,
   (addEntry_feeding ⟨[], ⟨some 77, some 77, true⟩⟩ .bottle "id1" (some 4) none 1000 1400
      (by decide) (by decide) (by decide)).2.2.2.1⟩

/-- C10: appending a non-feeding entry (a diaper or sleep entry) leaves
the scheduler state entirely unchanged and only prepends the new entry. -/
theorem addEntry_nonfeeding (st : AppState) (ty : EntryType) (newId : String)
    (amount duration : Option Int) (n1 n2 : Int)
    (hty : ty = .diaper_wet ∨ ty = .diaper_dirty ∨ ty = .diaper_both ∨ ty = .sleep) :
    (addEntry n1 n2 newId ty amount duration st).sched = st.sched ∧
    (addEntry n1 n2 newId ty amount duration st).entries =
      { id := newId, type := ty, timestamp := n1, amount := amount,
        duration := duration, note := none } :: st.entries := by
  have hf : isFeedingType ty = false := by rcases hty with h | h | h | h <;> subst h <;> rfl
  simp [addEntry, hf]

/-- Witness for C10 at a concrete wet-diaper append over a nontrivial
scheduler state. -/
theorem addEntry_nonfeeding_witness :
    (addEntry 500 900 "id2" .diaper_wet none none ⟨[], ⟨some 42, some 7, true⟩⟩).sched
      = ⟨some 42, some 7, true⟩ :=
  (addEntry_nonfeeding ⟨[], ⟨some 42, some 7, true⟩⟩ .diaper_wet "id2" none none 500 900
    (Or.inl rfl)).1

/-- Counterexample for C7 as stated: a state whose `nextFeedingAt` is set
to the timestamp `0` (a future instant when the current time is before the
epoch, so the state is Armed: set, not due, not notified, no alert), yet
`adjust(+60)` followed by `adjust(-60)` does not restore `nextFeedingAt`,
because the JavaScript `||` fallback in `adjustNextFeed` treats the stored
`0` as absent. -/
theorem adjustNextFeed_inverse_cex :
    (ScheduleState.nextFeedingAt ⟨some 0, none, false⟩ ≠ none) ∧
    (-5000000 : Int) < 0 ∧
    (adjustNextFeed (-5000000) (-60) (adjustNextFeed (-5000000) 60
        ⟨some 0, none, false⟩)).nextFeedingAt ≠ some 0 := by
  refine ⟨by simp, by decide, by decide⟩

/-- C7 amended: from an Armed state whose scheduled timestamp `v` is
nonzero and for which the intermediate value `v + 60` minutes is also
nonzero (the JavaScript truthiness fallback of the source treats a zero
timestamp as unset), `adjust(+60)` followed by `adjust(-60)` restores
`nextFeedingAt` exactly, and each of the two calls leaves the alert
hidden. -/
theorem adjustNextFeed_inverse (s : ScheduleState) (v n1 n2 : Int)
    (hn : s.nextFeedingAt = some v) (h0 : v ≠ 0) (h60 : v + 60 * msPerMin ≠ 0) :
    (adjustNextFeed n1 60 s).alertVisible = false ∧
    (adjustNextFeed n2 (-60) (adjustNextFeed n1 60 s)).alertVisible = false ∧
    (adjustNextFeed n2 (-60) (adjustNextFeed n1 60 s)).nextFeedingAt = some v := by
  have h1 : adjustNextFeed n1 60 s =
      { s with nextFeedingAt := some (v + 60 * msPerMin), alertVisible := false } := by
    simp [adjustNextFeed, hn, bne_iff_ne, h0]
  have h2 : (adjustNextFeed n2 (-60)
      { s with nextFeedingAt := some (v + 60 * msPerMin), alertVisible := false }).nextFeedingAt
      = some (v + 60 * msPerMin + (-60) * msPerMin) := by
    simp [adjustNextFeed, bne_iff_ne, h60]
  refine ⟨by rw [h1], by simp [adjustNextFeed], ?_⟩
  rw [h1, h2]
  congr 1
  ring

/-- Witness for the amended C7 at a concrete Armed state. -/
theorem adjustNextFeed_inverse_witness :
    (adjustNextFeed 11 60 ⟨some 999999, none, false⟩).alertVisible = false ∧
    (adjustNextFeed 22 (-60) (adjustNextFeed 11 60 ⟨some 999999, none, false⟩)).nextFeedingAt
      = some 999999 :=
  ⟨(adjustNextFeed_inverse ⟨some 999999, none, false⟩ 999999 11 22 rfl
      (by decide) (by decide)).1,
   (adjustNextFeed_inverse ⟨some 999999, none, false⟩ 999999 11 22 rfl
      (by decide) (by decide)).2.2⟩

/-- C8: `updateEntryAmount` preserves the length of the sequence, leaves
every field but `amount` of every entry (and every field of non-matching
entries) unchanged in place, replaces the `amount` of each entry whose id
matches, and is the identity when no entry has the id. -/
theorem updateEntryAmount_frame (id : String) (amt : Int) (entries : List LogEntry) :
    (updateEntryAmount id amt entries).length = entries.length ∧
    (∀ (i : Nat) (e e' : LogEntry), entries[i]? = some e →
        (updateEntryAmount id amt entries)[i]? = some e' →
        e'.id = e.id ∧ e'.type = e.type ∧ e'.timestamp = e.timestamp ∧
        e'.duration = e.duration ∧ e'.note = e.note ∧
        e'.amount = if e.id = id then some amt else e.amount) ∧
    ((∀ e ∈ entries, e.id ≠ id) → updateEntryAmount id amt entries = entries) := by
  refine ⟨by simp [updateEntryAmount], ?_, ?_⟩
  · intro i e e' he he'
    rw [updateEntryAmount, List.getElem?_map, he, Option.map_some'] at he'
    have he'' : (if e.id = id then { e with amount := some amt } else e) = e' :=
      Option.some.inj he'
    by_cases h : e.id = id
    · rw [if_pos h] at he''
      subst he''
      simp [h]
    · rw [if_neg h] at he''
      subst he''
      simp [h]
  · intro h
    have : entries.map (fun e => if e.id = id then { e with amount := some amt } else e)
        = entries.map (fun e => e) :=
      List.map_congr_left (fun e he => by rw [if_neg (h e he)])
    simpa [updateEntryAmount] using this

/-- Witness for C8 at a concrete two-entry store: one matching id and one
absent id. -/
theorem updateEntryAmount_frame_witness :
    (updateEntryAmount "a" 5 [⟨"a", .bottle, 10, some 4, none, none⟩,
        ⟨"b", .sleep, 20, none, some 30, none⟩]).length = 2 ∧
    updateEntryAmount "zz" 5 [⟨"a", .bottle, 10, some 4, none, none⟩,
        ⟨"b", .sleep, 20, none, some 30, none⟩]
      = [⟨"a", .bottle, 10, some 4, none, none⟩, ⟨"b", .sleep, 20, none, some 30, none⟩] :=
  ⟨(updateEntryAmount_frame "a" 5 _).1,
   (updateEntryAmount_frame "zz" 5 _).2.2 (by decide)⟩

/-- C6: for an in-range hour:minute input, manual time entry schedules an
instant whose hour, minute and seconds fields are the requested time with
seconds zero; it falls on the current calendar day when the today
occurrence of that time is not more than 30 minutes before now, and
exactly one calendar day later otherwise; the alert is hidden. -/
theorem saveManualTime_spec (now hh mm : Int) (s : ScheduleState)
    (hh0 : 0 ≤ hh) (hh24 : hh < 24) (mm0 : 0 ≤ mm) (mm60 : mm < 60) :
    ∃ t, (saveManualTime now hh mm s).nextFeedingAt = some t ∧
      hourOf t = hh ∧ minuteOf t = mm ∧ secondOf t = 0 ∧
      (now - (dayStart now + hh * msPerHour + mm * msPerMin + now % 1000) ≤ 30 * msPerMin →
        dayIndex t = dayIndex now) ∧
      (30 * msPerMin < now - (dayStart now + hh * msPerHour + mm * msPerMin + now % 1000) →
        dayIndex t = dayIndex now + 1) ∧
      (saveManualTime now hh mm s).alertVisible = false := by
  simp only [saveManualTime, hourOf, minuteOf, secondOf, dayIndex, dayStart,
    msPerDay, msPerHour, msPerMin]
  by_cases hroll :
      now - now % 86400000 + hh * 3600000 + mm * 60000 + now % 1000 < now - 1000 * 60 * 30
  · rw [if_pos hroll]
    refine ⟨now - now % 86400000 + hh * 3600000 + mm * 60000 + now % 1000 + 86400000,
      rfl, ?_, ?_, ?_, ?_, ?_, trivial⟩
    · omega
    · omega
    · omega
    · intro h; omega
    · intro h; omega
  · rw [if_neg hroll]
    refine ⟨now - now % 86400000 + hh * 3600000 + mm * 60000 + now % 1000,
      rfl, ?_, ?_, ?_, ?_, ?_, trivial⟩
    · omega
    · omega
    · omega
    · intro h; omega
    · intro h; omega

/-- Witness for C6: the spec scenario, 08:00 entered at 09:00.123 of local
day 0, schedules 08:00 of the next calendar day. -/
theorem saveManualTime_spec_witness :
    (saveManualTime 32400123 8 0 ⟨none, none, false⟩).nextFeedingAt = some 115200123 ∧
    dayIndex 115200123 = dayIndex 32400123 + 1 ∧
    hourOf 115200123 = 8 ∧ minuteOf 115200123 = 0 ∧ secondOf 115200123 = 0 := by
  obtain ⟨t, h1, hhour, hmin, hsec, _, hroll, _⟩ :=
    saveManualTime_spec 32400123 8 0 ⟨none, none, false⟩
      (by decide) (by decide) (by decide) (by decide)
  have h0 : (saveManualTime 32400123 8 0 ⟨none, none, false⟩).nextFeedingAt
      = some 115200123 := by decide
  have ht : t = 115200123 := Option.some.inj (h1.symm.trans h0)
  subst ht
  exact ⟨h1, hroll (by decide), hhour, hmin, hsec⟩

/-- Local weekday of the instant `t` (an abstract weekday code `0..6`;
the source uses the short locale weekday name, which determines and is
determined by this code). -/
def weekday (t : Int) : Int := (dayIndex t + 4) % 7

/-- Models the init loop of `getChartData`: one bucket per `i < 7`, keyed
by the weekday of `now` minus `i` days (via `setDate(getDate() - i)`),
initialized to 0, in insertion order today-first. -/
def initBuckets (now : Int) : List (Int × Nat) :=
  (List.range 7).map (fun i => (weekday (now - (i : Int) * msPerDay), 0))

/-- Models `if (dailyData[day] !== undefined) dailyData[day] += 1`: the
bucket keyed `k` is incremented when present, and nothing happens when no
bucket has that key. -/
def bumpBucket (k : Int) (l : List (Int × Nat)) : List (Int × Nat) :=
  l.map (fun p => if p.1 = k then (p.1, p.2 + 1) else p)

/-- Models `getChartData()`: initialize the seven weekday buckets, fold
the whole entry list bumping the bucket of each feeding entry's weekday,
then `Object.entries(...).reverse()` (oldest day first). -/
def getChartData (now : Int) (entries : List LogEntry) : List (Int × Nat) :=
  (entries.foldl
    (fun acc e => if isFeedingType e.type then bumpBucket (weekday e.timestamp) acc else acc)
    (initBuckets now)).reverse

/-- Number of feeding-type entries of the whole log whose local weekday
is `w`. -/
def countFeedingOnWeekday (entries : List LogEntry) (w : Int) : Nat :=
  entries.countP (fun e => isFeedingType e.type && weekday e.timestamp == w)

/-- Helper: folding the bump step of `getChartData` over the entry list
adds, to every bucket, the number of feeding entries of the whole log
falling on the bucket's weekday. -/
theorem foldBuckets (entries : List LogEntry) (l : List (Int × Nat)) :
    entries.foldl
        (fun acc e => if isFeedingType e.type then bumpBucket (weekday e.timestamp) acc else acc) l
      = l.map (fun p => (p.1, p.2 + countFeedingOnWeekday entries p.1)) := by
  induction entries generalizing l with
  | nil => simp [countFeedingOnWeekday]
  | cons e es ih =>
    simp only [List.foldl_cons]
    by_cases hf : isFeedingType e.type
    · rw [if_pos hf, ih]
      unfold bumpBucket
      rw [List.map_map]
      apply List.map_congr_left
      intro p _
      by_cases hp : p.1 = weekday e.timestamp
      · simp only [Function.comp, if_pos hp, countFeedingOnWeekday, List.countP_cons, hf,
          hp, beq_self_eq_true, Bool.and_true, and_true]
        simp [hp]
        omega
      · simp only [Function.comp, if_neg hp, countFeedingOnWeekday, List.countP_cons]
        have : (isFeedingType e.type && (weekday e.timestamp == p.1)) = false := by
          simp [Ne.symm hp]
        simp [this]
    · rw [if_neg hf, ih]
      apply List.map_congr_left
      intro p _
      have : (isFeedingType e.type && (weekday e.timestamp == p.1)) = false := by
        simp [hf]
      simp [countFeedingOnWeekday, List.countP_cons, this]

/-- Counterexample for C3 as stated: a single bottle entry exactly seven
days before `now` falls on none of the trailing seven calendar days, yet
the newest (last) bucket of the chart reports a count of 1, because the
source buckets by locale weekday name and an entry one week old shares
today's weekday. -/
theorem getChartData_cex :
    dayIndex (3 * msPerDay + 5000) < dayIndex (10 * msPerDay + 5000) - 6 ∧
    (getChartData (10 * msPerDay + 5000)
        [⟨"x", .bottle, 3 * msPerDay + 5000, some 4, none, none⟩]).getLast?
      = some (weekday (10 * msPerDay + 5000), 1) := by
  constructor
  · decide
  · decide

/-- The reading of the chart forced by the code: one bucket per trailing
calendar day, oldest first, whose count is the number of feeding entries
of the whole log sharing that day's weekday (any age). -/
def weekdayChartView (now : Int) (entries : List LogEntry) : List (Int × Nat) :=
  ((List.range 7).map (fun i =>
    (weekday (now - (i : Int) * msPerDay),
     countFeedingOnWeekday entries (weekday (now - (i : Int) * msPerDay))))).reverse

/-- C3 amended: the chart always has exactly 7 buckets, keyed oldest to
newest by the weekdays of the trailing 7 local calendar days, but each
bucket's count is the number of feeding-type entries of the whole log
whose local weekday equals the bucket's weekday — an entry of any age
contributes to the bucket sharing its weekday, including entries outside
the trailing 7 days. -/
theorem getChartData_amended (now : Int) (entries : List LogEntry) :
    getChartData now entries = weekdayChartView now entries ∧
    (getChartData now entries).length = 7 := by
  have h : getChartData now entries = weekdayChartView now entries := by
    unfold getChartData weekdayChartView
    rw [foldBuckets]
    unfold initBuckets
    rw [List.map_map]
    simp [Function.comp]
  refine ⟨h, ?_⟩
  rw [h]
  unfold weekdayChartView
  rw [List.length_reverse, List.length_map]
  rfl

/-- JSON values, the result type of the platform `JSON.parse`. -/
inductive Json where
  | null
  | bool (b : Bool)
  | num (n : Int)
  | str (s : String)
  | arr (elems : List Json)
  | obj (fields : List (String × Json))
deriving Repr

/-- The double-quote character. -/
def quoteChar : Char := Char.ofNat 34

/-- The backslash character. -/
def backslashChar : Char := Char.ofNat 92

/-- The opening curly brace character. -/
def lbraceChar : Char := Char.ofNat 123

/-- The closing curly brace character. -/
def rbraceChar : Char := Char.ofNat 125

/-- JSON insignificant whitespace. -/
def isWsChar (c : Char) : Bool := c = ' ' || c = '\n' || c = '\t' || c = '\r'

/-- Drop leading JSON whitespace. -/
def skipWs : List Char → List Char
  | [] => []
  | c :: cs => if isWsChar c then skipWs cs else c :: cs

/-- Parse the body of a JSON string literal after its opening quote, up to
the closing quote.  Escape sequences are consumed; their decoding is
simplified to the escaped character itself, which does not affect parse
success or failure. -/
def parseStringBody : List Char → Option (String × List Char)
  | [] => none
  | c :: cs =>
    if c = quoteChar then some ("", cs)
    else if c = backslashChar then
      match cs with
      | [] => none
      | d :: ds =>
        match parseStringBody ds with
        | none => none
        | some (s, r) => some (String.mk (d :: s.data), r)
    else
      match parseStringBody cs with
      | none => none
      | some (s, r) => some (String.mk (c :: s.data), r)

/-- Take a maximal run of decimal digits. -/
def takeDigits : List Char → List Char × List Char
  | [] => ([], [])
  | c :: cs =>
    if c.isDigit then
      let r := takeDigits cs
      (c :: r.1, r.2)
    else ([], c :: cs)

/-- Numeric value of a digit run. -/
def digitsVal (ds : List Char) : Nat :=
  ds.foldl (fun a c => a * 10 + (c.toNat - 48)) 0

mutual

/-- Fuel-indexed recursive-descent parser for a JSON value (null, boolean,
integer number, string, array or object). -/
def parseVal : Nat → List Char → Option (Json × List Char)
  | 0, _ => none
  | fuel + 1, cs =>
    match skipWs cs with
    | [] => none
    | c :: rest =>
      if c = 'n' then
        match rest with
        | 'u' :: 'l' :: 'l' :: r => some (Json.null, r)
        | _ => none
      else if c = 't' then
        match rest with
        | 'r' :: 'u' :: 'e' :: r => some (Json.bool true, r)
        | _ => none
      else if c = 'f' then
        match rest with
        | 'a' :: 'l' :: 's' :: 'e' :: r => some (Json.bool false, r)
        | _ => none
      else if c = quoteChar then
        match parseStringBody rest with
        | none => none
        | some (s, r) => some (Json.str s, r)
      else if c = '-' then
        match takeDigits rest with
        | ([], _) => none
        | (ds, r) => some (Json.num (-(digitsVal ds : Int)), r)
      else if c.isDigit then
        match takeDigits (c :: rest) with
        | (ds, r) => some (Json.num (digitsVal ds), r)
      else if c = '[' then
        match skipWs rest with
        | ']' :: r => some (Json.arr [], r)
        | cs2 =>
          match parseItems fuel cs2 with
          | none => none
          | some (xs, r) => some (Json.arr xs, r)
      else if c = lbraceChar then
        match skipWs rest with
        | [] => none
        | d :: r =>
          if d = rbraceChar then some (Json.obj [], r)
          else
            match parseMembers fuel (d :: r) with
            | none => none
            | some (fs, r2) => some (Json.obj fs, r2)
      else none

/-- Comma-separated JSON array items up to the closing bracket. -/
def parseItems : Nat → List Char → Option (List Json × List Char)
  | 0, _ => none
  | fuel + 1, cs =>
    match parseVal fuel cs with
    | none => none
    | some (v, r) =>
      match skipWs r with
      | ',' :: r2 =>
        match parseItems fuel r2 with
        | none => none
        | some (xs, r3) => some (v :: xs, r3)
      | ']' :: r2 => some ([v], r2)
      | _ => none

/-- Comma-separated JSON object members up to the closing brace. -/
def parseMembers : Nat → List Char → Option (List (String × Json) × List Char)
  | 0, _ => none
  | fuel + 1, cs =>
    match skipWs cs with
    | [] => none
    | c :: rest =>
      if c = quoteChar then
        match parseStringBody rest with
        | none => none
        | some (k, r) =>
          match skipWs r with
          | ':' :: r2 =>
            match parseVal fuel r2 with
            | none => none
            | some (v, r3) =>
              match skipWs r3 with
              | ',' :: r4 =>
                match parseMembers fuel r4 with
                | none => none
                | some (fs, r5) => some ((k, v) :: fs, r5)
              | d :: r4 => if d = rbraceChar then some ([(k, v)], r4) else none
              | [] => none
          | _ => none
      else none

end

/-- Models the platform `JSON.parse`: `some` of the parsed value on a
well-formed document, `none` (an exception in the source) otherwise. -/
def jsonParse (s : String) : Option Json :=
  match parseVal (s.length + 1) s.data with
  | none => none
  | some (v, r) => if (skipWs r).isEmpty then some v else none

example : jsonParse "null" = some Json.null := by rfl

example : jsonParse "corrupt" = none := by rfl

example : jsonParse "\x7b\x7d" = some (Json.obj []) := by rfl

example : jsonParse "[1, 2]" = some (Json.arr [Json.num 1, Json.num 2]) := by rfl

/-- Models the `useState` initializer of the entry store:
`const saved = localStorage.getItem('nurture_logs'); return saved ? JSON.parse(saved) : []`.
The stored value is `none` for an absent key.  A falsy string (absent or
empty) yields the empty array; otherwise `JSON.parse` runs with no
surrounding try/catch, so a parse failure is an uncaught exception,
modelled as `Except.error`. -/
def loadEntries (stored : Option String) : Except Unit Json :=
  match stored with
  | none => Except.ok (Json.arr [])
  | some s =>
    if s = "" then Except.ok (Json.arr [])
    else
      match jsonParse s with
      | some j => Except.ok j
      | none => Except.error ()

/-- Counterexample for C5 as stated: with the entries key present but
holding a corrupt (non-JSON) string, loading does not yield the empty
sequence — the uncaught `JSON.parse` exception makes the load fail. -/
theorem loadEntries_cex :
    jsonParse "corrupt" = none ∧
    loadEntries (some "corrupt") = Except.error () := by
  exact ⟨rfl, rfl⟩

/-- C5 amended: an absent key (or stored empty string) yields the empty
entry sequence; a present non-empty string is JSON-parsed, a corrupt
(non-JSON) string making the load fail with an uncaught parse exception,
and a well-formed one being used as the loaded value. -/
theorem loadEntries_amended (s : String) :
    loadEntries none = Except.ok (Json.arr []) ∧
    loadEntries (some "") = Except.ok (Json.arr []) ∧
    (s ≠ "" → jsonParse s = none → loadEntries (some s) = Except.error ()) ∧
    (∀ j, s ≠ "" → jsonParse s = some j → loadEntries (some s) = Except.ok j) := by
  refine ⟨rfl, rfl, ?_, ?_⟩
  · intro hs hp
    simp [loadEntries, hs, hp]
  · intro j hs hp
    simp [loadEntries, hs, hp]

/-- Witness for the amended C5 at concrete storage contents. -/
theorem loadEntries_amended_witness :
    loadEntries none = Except.ok (Json.arr []) ∧
    loadEntries (some "xx") = Except.error () :=
  ⟨(loadEntries_amended "xx").1,
   (loadEntries_amended "xx").2.2.1 (by decide) rfl⟩

/-- Outcome of the model-API call awaited by `getSmartInsights`: the
promise either rejects, or resolves with an optional `response.text`. -/
inductive ApiResult where
  | rejected
  | resolved (text : Option String)

/-- Models `response.text || '\x7b\x7d'`: JavaScript `||` on strings, so a
missing or empty text falls back to the two-character document `\x7b\x7d`. -/
def effectiveText : Option String → String
  | none => "\x7b\x7d"
  | some s => if s = "" then "\x7b\x7d" else s

/-- The fixed fallback triple returned by the catch block of
`getSmartInsights`, as a JSON object value. -/
def fallbackInsight : Json :=
  Json.obj
    [("summary", Json.str "I'm still learning your baby's patterns. Keep logging!"),
     ("prediction", Json.str "Check back after a few more entries."),
     ("tip", Json.str "Remember to drink plenty of water while breastfeeding.")]

/-- Models the failure handling of `getSmartInsights`: the whole body runs
inside `try`, so a rejected call or a `JSON.parse` failure lands in the
catch block, which returns the fixed fallback triple; a response whose
effective text parses as JSON is returned as-is (the `as AIInsight` cast
is unchecked).  Totality of this function models that no exception
escapes to the caller. -/
def getSmartInsights (resp : ApiResult) : Json :=
  match resp with
  | .rejected => fallbackInsight
  | .resolved t =>
    match jsonParse (effectiveText t) with
    | some j => j
    | none => fallbackInsight

/-- Counterexample for C9 as stated: a malformed response carrying no text
at all resolves `response.text || '\x7b\x7d'` to the empty JSON object,
which parses, so the call returns the empty object cast to an insight —
not the fixed fallback triple. -/
theorem getSmartInsights_cex :
    getSmartInsights (ApiResult.resolved none) = Json.obj [] ∧
    Json.obj [] ≠ fallbackInsight := by
  refine ⟨rfl, ?_⟩
  intro h
  simp [fallbackInsight] at h

/-- C9 amended: a rejected call, and a response whose effective text is
not parseable JSON, both return the fixed fallback triple; a response
whose effective text parses as JSON is returned as-is even when it is not
the required triple; in every case a value is returned (no exception
escapes). -/
theorem getSmartInsights_amended (t : Option String) :
    getSmartInsights ApiResult.rejected = fallbackInsight ∧
    (jsonParse (effectiveText t) = none →
      getSmartInsights (ApiResult.resolved t) = fallbackInsight) ∧
    (∀ j, jsonParse (effectiveText t) = some j →
      getSmartInsights (ApiResult.resolved t) = j) := by
  refine ⟨rfl, ?_, ?_⟩
  · intro hp
    simp [getSmartInsights, hp]
  · intro j hp
    simp [getSmartInsights, hp]

/-- Witness for the amended C9: a rejected call and a response with
unparseable text both produce the fallback. -/
theorem getSmartInsights_amended_witness :
    getSmartInsights ApiResult.rejected = fallbackInsight ∧
    getSmartInsights (ApiResult.resolved (some "oops")) = fallbackInsight :=
  ⟨(getSmartInsights_amended (some "oops")).1,
   (getSmartInsights_amended (some "oops")).2.1 rfl⟩

/-- The reduced record sent to the insight model for one log entry:
`(\x7b type: e.type, time: ..., amount: e.amount, duration: e.duration \x7d)`. -/
structure InsightLogItem where
  type : EntryType
  time : String
  amount : Option Int
  duration : Option Int
deriving DecidableEq, Repr

/-- Models `new Date(e.timestamp).toLocaleString()` as an injective
human-readable rendering of the timestamp (the claims depend only on
which entries are rendered, not on the locale format). -/
def toLocaleStringModel (t : Int) : String := toString t

/-- The per-entry reduction inside `recentLogs`. -/
def reduceEntry (e : LogEntry) : InsightLogItem :=
  { type := e.type, time := toLocaleStringModel e.timestamp,
    amount := e.amount, duration := e.duration }

/-- Models `entries.slice(-20).map(...)` of `getSmartInsights`:
`slice(-20)` keeps the last `min(20, length)` elements of the array, i.e.
drops all but the final 20. -/
def recentLogs (entries : List LogEntry) : List InsightLogItem :=
  (entries.drop (entries.length - 20)).map reduceEntry

/-- A concrete store of 21 entries in the app's newest-first order:
index 0 carries the largest timestamp 21, index 20 the smallest 1. -/
def entries21 : List LogEntry :=
  (List.range 21).map (fun i =>
    { id := toString i, type := EntryType.bottle, timestamp := 21 - (i : Int),
      amount := none, duration := none, note := none })

/-- C4 failing input: on a newest-first store of 21 entries, the request
is built from `slice(-20)` = the 20 oldest entries (the newest entry,
index 0, is dropped), not from the 20 most recent entries. -/
theorem recentLogs_bug :
    entries21.length = 21 ∧
    recentLogs entries21 = (entries21.drop 1).map reduceEntry ∧
    recentLogs entries21 ≠ (entries21.take 20).map reduceEntry := by
  refine ⟨rfl, rfl, ?_⟩
  decide
